import Mathlib

/-!
Verification of the scene-graph post-processing and event-driven persistence
pipeline of the `bevy_sponza_scene` viewer (`src/main.rs`).

The embedding models:
  * the generic recursive tree walker `all_children` (src/main.rs:199-210),
  * the scene sanitizer system `proc_scene` (src/main.rs:213-251): material
    normal-map flip, removal of imported lights/cameras, `PostProcScene`
    marker lifecycle,
  * the persistence gateway systems `save_scene` / `load_scene`
    (src/main.rs:135-197): event coalescing, the fixed 26-point-light
    snapshot, the detached write task.

Entities are identified by natural numbers.  The parent→children relation is
a forest of rose trees; a node's `children` field is `none` when the entity
carries no `Children` component (so the `children_query.get` lookup fails),
mirroring `if let Ok(children) = children_query.get(*child)` in the source.
Commands issued during a system (`despawn_recursive`, `remove::<...>`) are
deferred in Bevy until the system finishes, so the model first computes the
whole walk over the unmodified hierarchy snapshot and applies the queued
despawns and marker removals afterwards, exactly as the engine does.
-/

/-- A scene-graph subtree: a node payload together with the entity's
`Children` component (`none` when the lookup fails, i.e. the entity has no
`Children` component at all). -/
inductive STree (α : Type) : Type where
  | node (data : α) (children : Option (List (STree α))) : STree α

namespace STree

/-- The payload stored at the root of a subtree. -/
def data : STree α → α
  | node d _ => d

/-- The `Children` component of the root of a subtree. -/
def children : STree α → Option (List (STree α))
  | node _ c => c

end STree

/-- Embedding of `all_children` (src/main.rs:199-210): for each child, first
recurse into that child's own children when the lookup succeeds, then apply
the closure to the child itself.  The returned list is the sequence of
payloads the closure is applied to, in order. -/
def all_children : List (STree α) → List α
  | [] => []
  | STree.node d none :: rest => d :: all_children rest
  | STree.node d (some cs) :: rest => all_children cs ++ d :: all_children rest

/-- All subtrees (nodes) of a forest, the roots included. -/
def subtreesF : List (STree α) → List (STree α)
  | [] => []
  | STree.node d none :: rest => STree.node d none :: subtreesF rest
  | STree.node d (some cs) :: rest =>
      STree.node d (some cs) :: (subtreesF cs ++ subtreesF rest)

theorem all_children_perm (ts : List (STree α)) :
    List.Perm (all_children ts) ((subtreesF ts).map STree.data) := by
  induction ts using all_children.induct with
  | case1 => simp [all_children, subtreesF]
  | case2 d rest ih =>
      simpa [all_children, subtreesF, STree.data] using ih.cons d
  | case3 d cs rest ih1 ih2 =>
      simp only [all_children, subtreesF, List.map_cons, List.map_append, STree.data]
      exact List.perm_middle.trans ((ih1.append ih2).cons d)

theorem mem_subtreesF_of_mem {ts : List (STree α)} {t : STree α} (h : t ∈ ts) :
    t ∈ subtreesF ts := by
  induction ts using subtreesF.induct with
  | case1 => simp at h
  | case2 d rest ih =>
      rcases List.mem_cons.mp h with h | h
      · simp [subtreesF, h]
      · simp [subtreesF, ih h]
  | case3 d cs rest ih1 ih2 =>
      rcases List.mem_cons.mp h with h | h
      · simp [subtreesF, h]
      · simp [subtreesF, ih2 h]

theorem data_mem_all_children {ts : List (STree α)} {t : STree α}
    (h : t ∈ subtreesF ts) : t.data ∈ all_children ts :=
  (all_children_perm ts).mem_iff.mpr (List.mem_map_of_mem STree.data h)

/-- Post-order decomposition: the walk over a forest lists the whole subtree
of any node with a `Children` component strictly before the node itself. -/
theorem all_children_decomp {ts : List (STree α)} {t : STree α}
    (ht : t ∈ subtreesF ts) {cs : List (STree α)} (hcs : t.children = some cs) :
    ∃ A B, all_children ts = A ++ all_children cs ++ t.data :: B := by
  induction ts using subtreesF.induct with
  | case1 => simp [subtreesF] at ht
  | case2 d rest ih =>
      simp only [subtreesF, List.mem_cons] at ht
      rcases ht with rfl | ht
      · simp [STree.children] at hcs
      · obtain ⟨A, B, hAB⟩ := ih ht
        exact ⟨d :: A, B, by simp [all_children, hAB]⟩
  | case3 d cs0 rest ih1 ih2 =>
      simp only [subtreesF, List.mem_cons, List.mem_append] at ht
      rcases ht with rfl | ht | ht
      · simp only [STree.children, Option.some.injEq] at hcs
        subst hcs
        exact ⟨[], all_children rest, by simp [all_children, STree.data]⟩
      · obtain ⟨A, B, hAB⟩ := ih1 ht
        refine ⟨A, B ++ d :: all_children rest, ?_⟩
        simp [all_children, hAB]
      · obtain ⟨A, B, hAB⟩ := ih2 ht
        refine ⟨all_children cs0 ++ d :: A, B, ?_⟩
        simp [all_children, hAB]

theorem indexOf_lt_of_pair_sublist [DecidableEq α] {a b : α} :
    ∀ {l : List α}, l.Nodup → List.Sublist [a, b] l →
      l.indexOf a < l.indexOf b := by
  intro l
  induction l with
  | nil => intro _ h; cases h
  | cons x xs ih =>
      intro hnd hsub
      have hx : x ∉ xs := (List.nodup_cons.mp hnd).1
      have hxs : xs.Nodup := (List.nodup_cons.mp hnd).2
      cases hsub with
      | cons _ h =>
          have ha : a ∈ xs := h.subset (by simp)
          have hb : b ∈ xs := h.subset (by simp)
          have hax : x ≠ a := fun e => hx (e ▸ ha)
          have hbx : x ≠ b := fun e => hx (e ▸ hb)
          rw [List.indexOf_cons_ne _ hax, List.indexOf_cons_ne _ hbx]
          exact Nat.succ_lt_succ (ih hxs h)
      | cons₂ _ h =>
          have hb : b ∈ xs := h.subset (by simp)
          have hba : a ≠ b := fun e => hx (e ▸ hb)
          rw [List.indexOf_cons_self, List.indexOf_cons_ne _ hba]
          exact Nat.succ_pos _

/-- Claim C1: the tree walker, given a root's list of children and a
children-lookup that may fail for leaves, applies the caller-supplied action
to every strict descendant of the root exactly once (the visit sequence is a
permutation of the set of descendants), in post-order: for every parent-child
edge among the descendants the child is acted on strictly before its parent. -/
theorem all_children_visits_every_descendant_postorder
    (ts : List (STree Nat)) (hnd : ((subtreesF ts).map STree.data).Nodup) :
    List.Perm (all_children ts) ((subtreesF ts).map STree.data) ∧
    ∀ t, t ∈ subtreesF ts → ∀ cs, t.children = some cs → ∀ c, c ∈ cs →
      (all_children ts).indexOf c.data < (all_children ts).indexOf t.data := by
  refine ⟨all_children_perm ts, ?_⟩
  intro t ht cs hcs c hc
  obtain ⟨A, B, hAB⟩ := all_children_decomp ht hcs
  have hnd2 : (all_children ts).Nodup := ((all_children_perm ts).nodup_iff).mpr hnd
  have hcmem : c.data ∈ all_children cs :=
    data_mem_all_children (mem_subtreesF_of_mem hc)
  have hsub : List.Sublist [c.data, t.data] (all_children ts) := by
    rw [hAB, List.append_assoc]
    refine List.Sublist.trans ?_ (List.sublist_append_right A _)
    have h1 : List.Sublist [c.data] (all_children cs) :=
      List.singleton_sublist.mpr hcmem
    have h2 : List.Sublist [t.data] (t.data :: B) :=
      List.Sublist.cons₂ t.data (List.nil_sublist B)
    exact h1.append h2
  exact indexOf_lt_of_pair_sublist hnd2 hsub

/-- Witness for C1 on the concrete forest 1 → [2, 3 → [4]]: the walk acts on
entity 4 strictly before its parent 3. -/
theorem all_children_visits_every_descendant_postorder_witness :
    (all_children [STree.node 1
        (some [STree.node 2 none, STree.node 3 (some [STree.node 4 none])])]).indexOf 4 <
    (all_children [STree.node 1
        (some [STree.node 2 none, STree.node 3 (some [STree.node 4 none])])]).indexOf 3 := by
  have h := (all_children_visits_every_descendant_postorder
      [STree.node 1 (some [STree.node 2 none, STree.node 3 (some [STree.node 4 none])])]
      (by simp only [subtreesF, STree.data, List.map]; decide)).2
      (STree.node 3 (some [STree.node 4 none])) (by simp [subtreesF])
      [STree.node 4 none] rfl (STree.node 4 none) (by simp)
  simpa [STree.data] using h

/-- The mutable part of a `StandardMaterial` resource that the sanitizer
touches, plus one field standing for all the remaining (untouched)
`StandardMaterial` fields. -/
structure StdMaterial where
  flip_normal_map_y : Bool
  base_color : Nat
deriving DecidableEq

/-- The global material store `Assets<StandardMaterial>`, keyed by the id of
a `Handle<StandardMaterial>`; `none` means the resource is not (yet) in the
store, so `materials.get_mut(mat_h)` fails. -/
def MatStore : Type := Nat → Option StdMaterial

/-- The components of one entity that the sanitizer and its queries read:
the entity id, the light tags (`PointLight`/`DirectionalLight`/`SpotLight`),
the `GrifLight` marker, the `Camera` tag, the optional
`Handle<StandardMaterial>` and the `PostProcScene` marker. -/
structure EntityData where
  id : Nat
  hasPointLight : Bool
  hasDirectionalLight : Bool
  hasSpotLight : Bool
  hasGrifLight : Bool
  hasCamera : Bool
  matHandle : Option Nat
  postProcScene : Bool
deriving DecidableEq

/-- An entity matches `Or<(With<PointLight>, With<DirectionalLight>,
With<SpotLight>)>`. -/
def lightTag (e : EntityData) : Bool :=
  e.hasPointLight || e.hasDirectionalLight || e.hasSpotLight

/-- The `lights` query of `proc_scene` (src/main.rs:219-225): a light tag
together with `Without<GrifLight>`. -/
def inLightsQuery (e : EntityData) : Bool :=
  lightTag e && !e.hasGrifLight

/-- The `cameras` query of `proc_scene` (src/main.rs:226). -/
def inCamerasQuery (e : EntityData) : Bool :=
  e.hasCamera

/-- The walk closure queues `despawn_recursive` for this entity
(src/main.rs:238-246). -/
def shouldDespawn (e : EntityData) : Bool :=
  inLightsQuery e || inCamerasQuery e

/-- The material step of the walk closure (src/main.rs:231-236): when the
entity holds a `Handle<StandardMaterial>` and the store resolves it, set
`flip_normal_map_y` to `true`; otherwise leave the store unchanged. -/
def flipMat (mats : MatStore) (h : Option Nat) : MatStore :=
  match h with
  | none => mats
  | some k =>
      match mats k with
      | none => mats
      | some m =>
          fun j => if j = k then some { m with flip_normal_map_y := true } else mats j

/-- The cumulative effect on the material store of running the walk closure
over the visit sequence, in visit order. -/
def procVisit (mats : MatStore) (visited : List EntityData) : MatStore :=
  visited.foldl (fun acc e => flipMat acc e.matHandle) mats

/-- The ids for which the walk closure queues `despawn_recursive`
(src/main.rs:238-246), in visit order. -/
def despawnIds (visited : List EntityData) : List Nat :=
  (visited.filter shouldDespawn).map EntityData.id

/-- Applying the queued `despawn_recursive` commands: every subtree whose
root id is in `ids` is removed together with all its descendants. -/
def removeAll (ids : List Nat) : List (STree EntityData) → List (STree EntityData)
  | [] => []
  | STree.node d none :: ts =>
      if d.id ∈ ids then removeAll ids ts
      else STree.node d none :: removeAll ids ts
  | STree.node d (some cs) :: ts =>
      if d.id ∈ ids then removeAll ids ts
      else STree.node d (some (removeAll ids cs)) :: removeAll ids ts

/-- Applying a queued `remove::<PostProcScene>` command to one entity's
data. -/
def unmarkData (um : List Nat) (d : EntityData) : EntityData :=
  if d.id ∈ um then { d with postProcScene := false } else d

/-- Applying the queued `remove::<PostProcScene>` commands to a forest. -/
def markOff (um : List Nat) : List (STree EntityData) → List (STree EntityData)
  | [] => []
  | STree.node d none :: ts =>
      STree.node (unmarkData um d) none :: markOff um ts
  | STree.node d (some cs) :: ts =>
      STree.node (unmarkData um d) (some (markOff um cs)) :: markOff um ts

/-- A snapshot entity of the save path: the `PointLightBundle` fields the
source sets (src/main.rs:172-180).  `Color::YELLOW` is a fixed constant; the
non-color light fields are filled by `Default::default()`, represented by a
single abstract token since their values live in the external engine. -/
structure ColorRGB where
  r : Int
  g : Int
  b : Int
deriving DecidableEq

def ColorRGB.YELLOW : ColorRGB := ⟨1, 1, 0⟩

/-- Abstract token for the `Default::default()` light parameters
(intensity, range, radius, shadows): their concrete values belong to the
external engine, the source only requests the defaults. -/
inductive LightParams where
  | defaults : LightParams
deriving DecidableEq

structure SavedLight where
  color : ColorRGB
  params : LightParams
  translation : Int × Int × Int
deriving DecidableEq

/-- The live world as the systems of `main.rs` see it: the scene forest, the
shared material store, the two event queues, the payloads handed to detached
I/O tasks, and the number of entities spawned by the load path. -/
structure World where
  trees : List (STree EntityData)
  mats : MatStore
  saveEvents : List Unit
  loadEvents : List Unit
  saveTasks : List (List SavedLight)
  loadSpawns : Nat

/-- One iteration of the `for entity in flip_normals_query` loop of
`proc_scene` (src/main.rs:228-250) for a marked root: when the root's
`Children` lookup succeeds the system walks the children, mutating the
material store immediately and queuing despawn ids and the root's marker
removal; when the lookup fails nothing at all happens for that root.
The accumulator carries (material store, queued despawn ids, queued
marker-removal ids). -/
def procStep (acc : MatStore × List Nat × List Nat) (root : STree EntityData) :
    MatStore × List Nat × List Nat :=
  match root.children with
  | none => acc
  | some cs =>
      (procVisit acc.1 (all_children cs),
       acc.2.1 ++ despawnIds (all_children cs),
       acc.2.2 ++ [root.data.id])

/-- The entities returned by `flip_normals_query` (src/main.rs:215): every
entity still carrying `PostProcScene`. -/
def markedRoots (w : World) : List (STree EntityData) :=
  (subtreesF w.trees).filter (fun t => t.data.postProcScene)

/-- The accumulated effect of the `for entity in flip_normals_query` loop:
final material store, queued despawn ids, queued marker removals. -/
def procRes (w : World) : MatStore × List Nat × List Nat :=
  (markedRoots w).foldl procStep (w.mats, [], [])

/-- Embedding of the `proc_scene` system (src/main.rs:213-251): iterate over
every entity carrying `PostProcScene`, run the walk for each, then apply the
queued commands (despawns, then marker removals) to the hierarchy.  Material
mutations are applied immediately (through `ResMut`), hierarchy commands are
deferred to the end of the system, as Bevy does. -/
def proc_scene (w : World) : World :=
  { w with trees := markOff (procRes w).2.2 (removeAll (procRes w).2.1 w.trees),
           mats := (procRes w).1 }

/-- The ephemeral `scene_world` built by the save path (src/main.rs:170-181):
26 point lights, spawned in a loop at `(i, 5, 0)` with `Color::YELLOW` and
default light parameters. -/
def scene_world : List SavedLight :=
  (List.range 26).foldl
    (fun acc i =>
      acc ++ [{ color := ColorRGB.YELLOW, params := LightParams.defaults,
                translation := ((i : Int), 5, 0) }])
    []

/-- Embedding of the `save_scene` system (src/main.rs:163-197): when the
`SaveScene` event queue is non-empty, clear it, build the ephemeral snapshot
world, and hand its serialized form to a detached I/O task.  Serialization
itself (`DynamicScene::from_world` + `serialize_ron`) is the external
engine's; the payload is modelled by the snapshot's entity list. -/
def save_scene (w : World) : World :=
  if w.saveEvents.isEmpty then w
  else
    { w with saveEvents := [], saveTasks := w.saveTasks ++ [scene_world] }

/-- Embedding of the `load_scene` system (src/main.rs:148-161): when the
`LoadScene` event queue is non-empty, clear it and spawn one new entity
holding the (not yet resolved) `DynamicSceneBundle` asset handle. -/
def load_scene (w : World) : World :=
  if w.loadEvents.isEmpty then w
  else
    { w with loadEvents := [], loadSpawns := w.loadSpawns + 1 }

theorem mem_subtreesF_removeAll {D : List Nat} :
    ∀ {ts : List (STree EntityData)} {u : STree EntityData},
      u ∈ subtreesF (removeAll D ts) →
      u.data.id ∉ D ∧ ∃ s, s ∈ subtreesF ts ∧ s.data = u.data := by
  intro ts
  induction ts using subtreesF.induct with
  | case1 => intro u hu; simp [removeAll, subtreesF] at hu
  | case2 d rest ih =>
      intro u hu
      by_cases hd : d.id ∈ D
      · rw [show removeAll D (STree.node d none :: rest) = removeAll D rest by
          simp [removeAll, hd]] at hu
        obtain ⟨h1, s, hs, he⟩ := ih hu
        exact ⟨h1, s, by simp only [subtreesF]; exact List.mem_cons_of_mem _ hs, he⟩
      · rw [show removeAll D (STree.node d none :: rest) =
            STree.node d none :: removeAll D rest by simp [removeAll, hd]] at hu
        simp only [subtreesF, List.mem_cons] at hu
        rcases hu with rfl | hu
        · exact ⟨by simpa [STree.data] using hd,
            STree.node d none, by simp [subtreesF], rfl⟩
        · obtain ⟨h1, s, hs, he⟩ := ih hu
          exact ⟨h1, s, by simp only [subtreesF]; exact List.mem_cons_of_mem _ hs, he⟩
  | case3 d cs rest ih1 ih2 =>
      intro u hu
      by_cases hd : d.id ∈ D
      · rw [show removeAll D (STree.node d (some cs) :: rest) = removeAll D rest by
          simp [removeAll, hd]] at hu
        obtain ⟨h1, s, hs, he⟩ := ih2 hu
        refine ⟨h1, s, ?_, he⟩
        simp only [subtreesF]
        exact List.mem_cons_of_mem _ (List.mem_append_right _ hs)
      · rw [show removeAll D (STree.node d (some cs) :: rest) =
            STree.node d (some (removeAll D cs)) :: removeAll D rest by
          simp [removeAll, hd]] at hu
        simp only [subtreesF, List.mem_cons, List.mem_append] at hu
        rcases hu with rfl | hu | hu
        · exact ⟨by simpa [STree.data] using hd,
            STree.node d (some cs), by simp [subtreesF], rfl⟩
        · obtain ⟨h1, s, hs, he⟩ := ih1 hu
          refine ⟨h1, s, ?_, he⟩
          simp only [subtreesF]
          exact List.mem_cons_of_mem _ (List.mem_append_left _ hs)
        · obtain ⟨h1, s, hs, he⟩ := ih2 hu
          refine ⟨h1, s, ?_, he⟩
          simp only [subtreesF]
          exact List.mem_cons_of_mem _ (List.mem_append_right _ hs)

theorem mem_subtreesF_markOff {um : List Nat} :
    ∀ {ts : List (STree EntityData)} {u : STree EntityData},
      u ∈ subtreesF (markOff um ts) →
      ∃ s, s ∈ subtreesF ts ∧ u.data = unmarkData um s.data := by
  intro ts
  induction ts using subtreesF.induct with
  | case1 => intro u hu; simp [markOff, subtreesF] at hu
  | case2 d rest ih =>
      intro u hu
      rw [show markOff um (STree.node d none :: rest) =
          STree.node (unmarkData um d) none :: markOff um rest by simp [markOff]] at hu
      simp only [subtreesF, List.mem_cons] at hu
      rcases hu with rfl | hu
      · exact ⟨STree.node d none, by simp [subtreesF], rfl⟩
      · obtain ⟨s, hs, he⟩ := ih hu
        exact ⟨s, by simp only [subtreesF]; exact List.mem_cons_of_mem _ hs, he⟩
  | case3 d cs rest ih1 ih2 =>
      intro u hu
      rw [show markOff um (STree.node d (some cs) :: rest) =
          STree.node (unmarkData um d) (some (markOff um cs)) :: markOff um rest by
        simp [markOff]] at hu
      simp only [subtreesF, List.mem_cons, List.mem_append] at hu
      rcases hu with rfl | hu | hu
      · exact ⟨STree.node d (some cs), by simp [subtreesF], rfl⟩
      · obtain ⟨s, hs, he⟩ := ih1 hu
        refine ⟨s, ?_, he⟩
        simp only [subtreesF]
        exact List.mem_cons_of_mem _ (List.mem_append_left _ hs)
      · obtain ⟨s, hs, he⟩ := ih2 hu
        refine ⟨s, ?_, he⟩
        simp only [subtreesF]
        exact List.mem_cons_of_mem _ (List.mem_append_right _ hs)

theorem unmarkData_id (um : List Nat) (d : EntityData) :
    (unmarkData um d).id = d.id := by
  unfold unmarkData; split <;> rfl

theorem unmarkData_lightTag (um : List Nat) (d : EntityData) :
    lightTag (unmarkData um d) = lightTag d := by
  unfold unmarkData; split <;> rfl

theorem unmarkData_grif (um : List Nat) (d : EntityData) :
    (unmarkData um d).hasGrifLight = d.hasGrifLight := by
  unfold unmarkData; split <;> rfl

theorem unmarkData_camera (um : List Nat) (d : EntityData) :
    (unmarkData um d).hasCamera = d.hasCamera := by
  unfold unmarkData; split <;> rfl

theorem unmarkData_postProc_of_mem {um : List Nat} {d : EntityData}
    (h : d.id ∈ um) : (unmarkData um d).postProcScene = false := by
  simp [unmarkData, h]

theorem removeAll_nil_ids : ∀ ts : List (STree EntityData), removeAll [] ts = ts := by
  intro ts
  induction ts using subtreesF.induct with
  | case1 => simp [removeAll]
  | case2 d rest ih => simp [removeAll, ih]
  | case3 d cs rest ih1 ih2 => simp [removeAll, ih1, ih2]

theorem markOff_nil_ids : ∀ ts : List (STree EntityData), markOff [] ts = ts := by
  intro ts
  induction ts using subtreesF.induct with
  | case1 => simp [markOff]
  | case2 d rest ih => simp [markOff, unmarkData, ih]
  | case3 d cs rest ih1 ih2 => simp [markOff, unmarkData, ih1, ih2]

theorem procStep_despawn_sub (acc : MatStore × List Nat × List Nat)
    (r : STree EntityData) : acc.2.1 ⊆ (procStep acc r).2.1 := by
  cases hr : r.children with
  | none => unfold procStep; rw [hr]; exact fun x hx => hx
  | some cs => unfold procStep; rw [hr]; exact List.subset_append_left _ _

theorem procStep_unmark_sub (acc : MatStore × List Nat × List Nat)
    (r : STree EntityData) : acc.2.2 ⊆ (procStep acc r).2.2 := by
  cases hr : r.children with
  | none => unfold procStep; rw [hr]; exact fun x hx => hx
  | some cs => unfold procStep; rw [hr]; exact List.subset_append_left _ _

theorem fold_despawn_sub (roots : List (STree EntityData)) :
    ∀ acc, acc.2.1 ⊆ (roots.foldl procStep acc).2.1 := by
  induction roots with
  | nil => intro acc; exact fun x h => h
  | cons a rs ih =>
      intro acc
      rw [List.foldl_cons]
      exact (procStep_despawn_sub acc a).trans (ih (procStep acc a))

theorem fold_unmark_sub (roots : List (STree EntityData)) :
    ∀ acc, acc.2.2 ⊆ (roots.foldl procStep acc).2.2 := by
  induction roots with
  | nil => intro acc; exact fun x h => h
  | cons a rs ih =>
      intro acc
      rw [List.foldl_cons]
      exact (procStep_unmark_sub acc a).trans (ih (procStep acc a))

theorem fold_despawn_mem (roots : List (STree EntityData))
    {r : STree EntityData} {cs : List (STree EntityData)}
    (hr : r ∈ roots) (hc : r.children = some cs) :
    ∀ acc, ∀ x ∈ despawnIds (all_children cs), x ∈ (roots.foldl procStep acc).2.1 := by
  induction roots with
  | nil => cases hr
  | cons a rs ih =>
      intro acc x hx
      rw [List.foldl_cons]
      rcases List.mem_cons.mp hr with rfl | hr2
      · refine fold_despawn_sub rs (procStep acc r) ?_
        unfold procStep
        rw [hc]
        exact List.mem_append_right _ hx
      · exact ih hr2 (procStep acc a) x hx

theorem fold_unmark_mem (roots : List (STree EntityData))
    {r : STree EntityData} {cs : List (STree EntityData)}
    (hr : r ∈ roots) (hc : r.children = some cs) :
    ∀ acc, r.data.id ∈ (roots.foldl procStep acc).2.2 := by
  induction roots with
  | nil => cases hr
  | cons a rs ih =>
      intro acc
      rw [List.foldl_cons]
      rcases List.mem_cons.mp hr with rfl | hr2
      · refine fold_unmark_sub rs (procStep acc r) ?_
        unfold procStep
        rw [hc]
        exact List.mem_append_right _ (by simp)
      · exact ih hr2 (procStep acc a)

theorem fold_procStep_all_none (roots : List (STree EntityData))
    (h : ∀ r ∈ roots, r.children = none) :
    ∀ acc, roots.foldl procStep acc = acc := by
  induction roots with
  | nil => intro acc; rfl
  | cons a rs ih =>
      intro acc
      rw [List.foldl_cons]
      have ha : procStep acc a = acc := by
        unfold procStep; rw [h a (by simp)]
      rw [ha, ih (fun r hr => h r (List.mem_cons_of_mem _ hr))]

theorem flipMat_none {mats : MatStore} {k : Nat} (h : Option Nat)
    (hk : mats k = none) : flipMat mats h k = none := by
  cases h with
  | none => simpa [flipMat] using hk
  | some j =>
      cases hj : mats j with
      | none => simpa [flipMat, hj] using hk
      | some m =>
          simp only [flipMat, hj]
          by_cases e : k = j
          · subst e; rw [hk] at hj; cases hj
          · simp [e, hk]

theorem procVisit_none {k : Nat} :
    ∀ (visited : List EntityData) (mats : MatStore), mats k = none →
      procVisit mats visited k = none := by
  intro visited
  induction visited with
  | nil => intro mats hk; exact hk
  | cons e rest ih =>
      intro mats hk
      have : procVisit mats (e :: rest) = procVisit (flipMat mats e.matHandle) rest := rfl
      rw [this]
      exact ih _ (flipMat_none e.matHandle hk)

theorem fold_mats_none (roots : List (STree EntityData)) {k : Nat} :
    ∀ acc : MatStore × List Nat × List Nat, acc.1 k = none →
      (roots.foldl procStep acc).1 k = none := by
  induction roots with
  | nil => intro acc hk; exact hk
  | cons a rs ih =>
      intro acc hk
      rw [List.foldl_cons]
      refine ih (procStep acc a) ?_
      cases hc : a.children with
      | none => unfold procStep; rw [hc]; exact hk
      | some cs => unfold procStep; rw [hc]; exact procVisit_none _ _ hk

/-- When no marked root has a `Children` component — also when nothing is
marked at all — `proc_scene` changes nothing. -/
theorem proc_scene_eq_self (w : World)
    (h : ∀ t ∈ subtreesF w.trees, t.data.postProcScene = true → t.children = none) :
    proc_scene w = w := by
  have hall : ∀ r ∈ markedRoots w, r.children = none := by
    intro r hr
    rw [markedRoots, List.mem_filter] at hr
    exact h r hr.1 (by simpa using hr.2)
  have hres : procRes w = (w.mats, [], []) :=
    fold_procStep_all_none _ hall _
  unfold proc_scene
  rw [hres]
  simp [removeAll_nil_ids, markOff_nil_ids]

/-- Once the walk over a marked root with an available children list has run,
every entity remaining in the world under that root's id has lost the
`PostProcScene` marker. -/
theorem proc_scene_unmarks (w : World) {t : STree EntityData}
    {cs : List (STree EntityData)}
    (ht : t ∈ subtreesF w.trees) (hm : t.data.postProcScene = true)
    (hc : t.children = some cs) :
    ∀ u ∈ subtreesF (proc_scene w).trees, u.data.id = t.data.id →
      u.data.postProcScene = false := by
  intro u hu hid
  have hmr : t ∈ markedRoots w := by
    rw [markedRoots, List.mem_filter]
    exact ⟨ht, by simp [hm]⟩
  have hUM : t.data.id ∈ (procRes w).2.2 := fold_unmark_mem _ hmr hc _
  have hu' : u ∈ subtreesF (markOff (procRes w).2.2 (removeAll (procRes w).2.1 w.trees)) := hu
  obtain ⟨s, _, hud⟩ := mem_subtreesF_markOff hu'
  rw [hud]
  apply unmarkData_postProc_of_mem
  have : s.data.id = u.data.id := by rw [hud, unmarkData_id]
  rw [this, hid]
  exact hUM

/-- Claim C2: for an imported subtree whose root carries `PostProcScene`,
after the sanitizer has processed it, zero descendant entities carry a light
tag (point, directional or spot) unless that light also carries `GrifLight`,
and zero descendant entities carry a camera tag: each such entity was
despawned together with its entire subtree. -/
theorem proc_scene_despawn_complete (w : World) (d : EntityData)
    (cs : List (STree EntityData)) (hw : w.trees = [STree.node d (some cs)])
    (hmark : d.postProcScene = true) :
    ∀ u ∈ subtreesF (proc_scene w).trees, u.data.id ≠ d.id →
      (lightTag u.data = true → u.data.hasGrifLight = true) ∧
      u.data.hasCamera = false := by
  intro u hu hne
  have hu' : u ∈ subtreesF (markOff (procRes w).2.2
      (removeAll (procRes w).2.1 w.trees)) := hu
  obtain ⟨s1, hs1, hud⟩ := mem_subtreesF_markOff hu'
  obtain ⟨hnotin, s, hs, hsd⟩ := mem_subtreesF_removeAll hs1
  have hid : u.data.id = s.data.id := by rw [hud, unmarkData_id, hsd]
  have hlt : lightTag u.data = lightTag s.data := by
    rw [hud, unmarkData_lightTag, hsd]
  have hgr : u.data.hasGrifLight = s.data.hasGrifLight := by
    rw [hud, unmarkData_grif, hsd]
  have hcam : u.data.hasCamera = s.data.hasCamera := by
    rw [hud, unmarkData_camera, hsd]
  have hroot : STree.node d (some cs) ∈ markedRoots w := by
    rw [markedRoots, hw, List.mem_filter]
    exact ⟨by simp [subtreesF], by simp [STree.data, hmark]⟩
  have hmem : s ∈ subtreesF cs := by
    rw [hw] at hs
    simp only [subtreesF] at hs
    rcases List.mem_cons.mp hs with rfl | hs2
    · exact absurd (by simpa [STree.data] using hid) hne
    · simpa using hs2
  have hvis : s.data ∈ all_children cs := data_mem_all_children hmem
  have hnd : shouldDespawn s.data = false := by
    cases h2 : shouldDespawn s.data
    · rfl
    · exfalso
      have hin : s.data.id ∈ despawnIds (all_children cs) :=
        List.mem_map_of_mem EntityData.id (List.mem_filter.mpr ⟨hvis, h2⟩)
      have hD : s.data.id ∈ (procRes w).2.1 := by
        unfold procRes
        exact fold_despawn_mem _ hroot rfl _ _ hin
      rw [← hsd] at hnotin
      exact hnotin hD
  simp only [shouldDespawn, inLightsQuery, inCamerasQuery, Bool.or_eq_false_iff,
    Bool.and_eq_false_iff] at hnd
  refine ⟨?_, by rw [hcam]; exact hnd.2⟩
  intro hl
  rw [hlt] at hl
  rcases hnd.1 with h | h
  · rw [hl] at h; cases h
  · rw [hgr]
    simpa using h

def exC2root : EntityData := ⟨0, false, false, false, false, false, none, true⟩

def exC2light : EntityData := ⟨1, true, false, false, false, false, none, false⟩

def exC2plain : EntityData := ⟨2, false, false, false, false, false, none, false⟩

def exC2world : World :=
  { trees := [STree.node exC2root
      (some [STree.node exC2light none, STree.node exC2plain none])],
    mats := fun _ => none, saveEvents := [], loadEvents := [],
    saveTasks := [], loadSpawns := 0 }

/-- Witness for C2: in a marked subtree holding one imported point light and
one plain entity, the surviving strict descendant carries no non-generated
light tag and no camera tag. -/
theorem proc_scene_despawn_complete_witness :
    (lightTag exC2plain = true → exC2plain.hasGrifLight = true) ∧
    exC2plain.hasCamera = false := by
  have hm : STree.node exC2plain none ∈ subtreesF (proc_scene exC2world).trees := by
    simp [proc_scene, procRes, markedRoots, exC2world, exC2root, exC2light, exC2plain,
      subtreesF, procStep, STree.children, STree.data, all_children, despawnIds,
      shouldDespawn, inLightsQuery, inCamerasQuery, lightTag, removeAll, markOff,
      unmarkData, procVisit, flipMat]
  have h := proc_scene_despawn_complete exC2world exC2root _ rfl rfl
      (STree.node exC2plain none) hm (by simp [exC2plain, exC2root, STree.data])
  simpa [STree.data] using h

/-- Claim C3: the per-subtree state machine is one-way.  After the walk over
a marked root (whose children lookup succeeds) completes, `PostProcScene` is
removed from that root; and since the system only selects entities still
carrying the marker, running the sanitizer on a world whose subtrees are all
already stable (marker absent) is a no-op that changes nothing. -/
theorem proc_scene_marker_one_way (w : World) :
    (∀ t, t ∈ subtreesF w.trees → t.data.postProcScene = true →
       ∀ cs, t.children = some cs →
         ∀ u ∈ subtreesF (proc_scene w).trees, u.data.id = t.data.id →
           u.data.postProcScene = false) ∧
    ((∀ t ∈ subtreesF w.trees, t.data.postProcScene = false) →
       proc_scene w = w) :=
  ⟨fun _ ht hm _ hc => proc_scene_unmarks w ht hm hc,
   fun h => proc_scene_eq_self w
     (fun t ht hm => absurd (h t ht) (by simp [hm]))⟩

def exC3world : World :=
  { trees := [STree.node ⟨7, true, false, false, false, true, some 3, false⟩
      (some [STree.node ⟨8, false, true, false, false, false, none, false⟩ none])],
    mats := fun _ => some ⟨false, 4⟩, saveEvents := [], loadEvents := [],
    saveTasks := [], loadSpawns := 0 }

/-- Witness for C3: on a world whose only subtree is already stable (marker
absent), the sanitizer is a no-op. -/
theorem proc_scene_marker_one_way_witness : proc_scene exC3world = exC3world :=
  (proc_scene_marker_one_way exC3world).2
    (by simp [exC3world, subtreesF, STree.data])

/-- Claim C10: when every entity still carrying `PostProcScene` has no
children list at all (its asset has not finished loading), the sanitizer
makes no change in that tick — in particular the marker is not removed — so
the pending roots are retried on every subsequent tick, unchanged, until a
children list exists. -/
theorem proc_scene_missing_children_retries (w : World)
    (h : ∀ t ∈ subtreesF w.trees, t.data.postProcScene = true →
      t.children = none) :
    proc_scene w = w ∧ ∀ n : Nat, proc_scene^[n] w = w := by
  have h1 : proc_scene w = w := proc_scene_eq_self w h
  refine ⟨h1, ?_⟩
  intro n
  induction n with
  | zero => rfl
  | succ m ih => rw [Function.iterate_succ_apply, h1, ih]

def exC10world : World :=
  { trees := [STree.node ⟨0, false, false, false, false, false, none, true⟩ none],
    mats := fun _ => none, saveEvents := [], loadEvents := [],
    saveTasks := [], loadSpawns := 0 }

/-- Witness for C10: a world with a single marked root whose children lookup
fails is untouched by the sanitizer, tick after tick. -/
theorem proc_scene_missing_children_retries_witness :
    proc_scene exC10world = exC10world ∧ proc_scene^[5] exC10world = exC10world := by
  have h := proc_scene_missing_children_retries exC10world
    (by simp [exC10world, subtreesF, STree.children])
  exact ⟨h.1, h.2 5⟩

def exC8world : World :=
  { trees := [STree.node ⟨0, false, false, false, false, false, none, true⟩
      (some [STree.node ⟨1, false, false, false, false, false, some 0, false⟩ none])],
    mats := fun _ => none, saveEvents := [], loadEvents := [],
    saveTasks := [], loadSpawns := 0 }

/-- Counterexample to C8 as stated: in a marked subtree whose only descendant
holds a `Handle<StandardMaterial>` that the store cannot resolve, the
sanitizer runs the walk anyway and removes `PostProcScene` from the root —
the marker does NOT stay set, so the flip is not retried on a later tick. -/
theorem proc_scene_no_flip_retry_counterexample :
    (proc_scene exC8world).mats 0 = none ∧
    (proc_scene exC8world).trees =
      [STree.node ⟨0, false, false, false, false, false, none, false⟩
        (some [STree.node ⟨1, false, false, false, false, false, some 0, false⟩ none])] := by
  constructor
  · show (procRes exC8world).1 0 = none
    simp [procRes, markedRoots, exC8world, subtreesF, procStep, STree.children,
      STree.data, all_children, procVisit, flipMat]
  · show markOff (procRes exC8world).2.2
      (removeAll (procRes exC8world).2.1 exC8world.trees) = _
    simp [procRes, markedRoots, exC8world, subtreesF, procStep, STree.children,
      STree.data, all_children, despawnIds, shouldDespawn, inLightsQuery,
      inCamerasQuery, lightTag, removeAll, markOff, unmarkData, procVisit, flipMat]

/-- Claim C8 as amended: a material resource that is not yet resolved when
the sanitizer visits an entity holding a `MaterialRef` is silently skipped,
not an error — the store keeps no entry for that handle and the walk
continues — but the `PostProcScene` marker is removed once the walk over an
available children list completes, so the flip is NOT retried on a later
tick; the marker only stays set (and the subtree is retried) when the root's
children lookup itself fails. -/
theorem unresolved_material_skipped_silently (w : World) (k : Nat)
    (hk : w.mats k = none) {t : STree EntityData} {cs : List (STree EntityData)}
    (ht : t ∈ subtreesF w.trees) (hm : t.data.postProcScene = true)
    (hc : t.children = some cs) :
    (proc_scene w).mats k = none ∧
    ∀ u ∈ subtreesF (proc_scene w).trees, u.data.id = t.data.id →
      u.data.postProcScene = false :=
  ⟨fold_mats_none _ _ hk, proc_scene_unmarks w ht hm hc⟩

def exC8worldB : World :=
  { trees := [STree.node ⟨4, false, false, false, false, false, none, true⟩
      (some [STree.node ⟨5, false, false, false, false, false, some 2, false⟩ none])],
    mats := fun _ => none, saveEvents := [], loadEvents := [],
    saveTasks := [], loadSpawns := 0 }

/-- Witness for the amended C8 on a concrete marked subtree with an
unresolved material handle. -/
theorem unresolved_material_skipped_silently_witness :
    (proc_scene exC8worldB).mats 2 = none ∧
    ∀ u ∈ subtreesF (proc_scene exC8worldB).trees,
      u.data.id = (STree.node (⟨4, false, false, false, false, false, none, true⟩ : EntityData)
        (some [STree.node ⟨5, false, false, false, false, false, some 2, false⟩ none])).data.id →
      u.data.postProcScene = false :=
  unresolved_material_skipped_silently exC8worldB 2 rfl
    (by simp [exC8worldB, subtreesF]) (by simp [STree.data]) rfl

/-- Pointwise characterization of one material-flip step: the store entry at
`k` is flipped to `true` exactly when the visited entity's handle is `k` and
the entry exists; no entry is ever created, deleted, reset to `false`, or
changed in its other fields. -/
theorem flipMat_apply (mats : MatStore) (h : Option Nat) (k : Nat) :
    flipMat mats h k =
      match mats k with
      | none => none
      | some m => some { m with flip_normal_map_y :=
          m.flip_normal_map_y || decide (h = some k) } := by
  cases h with
  | none =>
      cases hk : mats k with
      | none => simp [flipMat, hk]
      | some m => simp [flipMat, hk]
  | some j =>
      cases hj : mats j with
      | none =>
          cases hk : mats k with
          | none => simp [flipMat, hj, hk]
          | some m =>
              have hjk : ¬ (some j = some k) := by
                intro e
                rw [Option.some.injEq] at e
                rw [e, hk] at hj
                cases hj
              simp [flipMat, hj, hk, hjk]
      | some m =>
          by_cases e : k = j
          · subst e
            simp [flipMat, hj]
          · have hjk : ¬ (some j = some k) := by
              intro h2
              rw [Option.some.injEq] at h2
              exact e h2.symm
            cases hk : mats k with
            | none => simp [flipMat, hj, hk, e]
            | some m2 => simp [flipMat, hj, hk, e, hjk]

/-- Pointwise characterization of the whole walk's effect on the material
store: an entry at `k` survives unchanged except that its flip flag is OR-ed
with "some visited entity references handle `k`". -/
theorem procVisit_apply (visited : List EntityData) :
    ∀ (mats : MatStore) (k : Nat),
      procVisit mats visited k =
        match mats k with
        | none => none
        | some m => some { m with flip_normal_map_y := (m.flip_normal_map_y || visited.any (fun e => decide (e.matHandle = some k))) } := by
  induction visited with
  | nil =>
      intro mats k
      cases hk : mats k with
      | none => simp [procVisit, hk]
      | some m => simp [procVisit, hk]
  | cons e rest ih =>
      intro mats k
      have h1 : procVisit mats (e :: rest) =
          procVisit (flipMat mats e.matHandle) rest := rfl
      rw [h1, ih, flipMat_apply]
      cases hk : mats k with
      | none => simp
      | some m => simp [Bool.or_assoc]

theorem any_replicate_succ {α : Type} (n : Nat) (e : α) (f : α → Bool) :
    (List.replicate (n + 1) e).any f = f e := by
  induction n with
  | zero => simp
  | succ m ih => rw [List.replicate_succ, List.any_cons, ih, Bool.or_self]

/-- Claim C4: the sanitizer's material mutation is monotonic and convergent:
it only ever sets a resolved resource's `flip_normal_map_y` flag to `true`
(never resets it to `false`, never touches the other fields, never creates
or deletes entries), and running the flip through N ≥ 1 visited entities
that share one material resource yields exactly the same material store as
running it through one. -/
theorem material_flip_monotone_convergent (mats : MatStore)
    (visited : List EntityData) (e : EntityData) (k : Nat) (m : StdMaterial)
    (hm : mats k = some m) :
    (∃ m', procVisit mats visited k = some m' ∧
       m'.base_color = m.base_color ∧
       (m.flip_normal_map_y = true → m'.flip_normal_map_y = true)) ∧
    ∀ n, 1 ≤ n →
      procVisit mats (List.replicate n e) = procVisit mats [e] := by
  constructor
  · refine ⟨{ m with flip_normal_map_y := (m.flip_normal_map_y || visited.any (fun e => decide (e.matHandle = some k))) }, ?_, rfl, ?_⟩
    · rw [procVisit_apply, hm]
    · intro hf
      simp [hf]
  · intro n hn
    funext j
    rw [procVisit_apply, procVisit_apply]
    cases n with
    | zero => exact absurd hn (by simp)
    | succ n2 =>
        rw [any_replicate_succ]
        rw [show ([e].any (fun x => decide (x.matHandle = some j))) =
          decide (e.matHandle = some j) by simp]

def exC4mats : MatStore := fun j => if j = 0 then some ⟨false, 7⟩ else none

def exC4ent : EntityData := ⟨5, false, false, false, false, false, some 0, false⟩

/-- Witness for C4: a store holding one unflipped material, visited by three
entities sharing its handle, ends in the same state as after one visit. -/
theorem material_flip_monotone_convergent_witness :
    exC4mats 0 = some ⟨false, 7⟩ ∧
    procVisit exC4mats (List.replicate 3 exC4ent) = procVisit exC4mats [exC4ent] :=
  ⟨rfl, (material_flip_monotone_convergent exC4mats (List.replicate 3 exC4ent)
      exC4ent 0 ⟨false, 7⟩ rfl).2 3 (by norm_num)⟩

theorem foldl_append_singleton {α β : Type} (f : α → β) :
    ∀ (l : List α) (acc : List β),
      l.foldl (fun a i => a ++ [f i]) acc = acc ++ l.map f := by
  intro l
  induction l with
  | nil => intro acc; simp
  | cons x xs ih =>
      intro acc
      rw [List.foldl_cons, ih]
      simp

/-- The spawn loop of the save path builds exactly the 26 mapped lights. -/
theorem scene_world_eq_map :
    scene_world = (List.range 26).map (fun i =>
      { color := ColorRGB.YELLOW, params := LightParams.defaults,
        translation := ((i : Int), 5, 0) }) := by
  rw [scene_world, foldl_append_singleton]
  simp

/-- Claim C5: whenever the save path executes, the ephemeral snapshot it
serializes contains exactly 26 point-light entities at positions (0,5,0)
through (25,5,0) — one unit apart along one axis — all with the same fixed
color (`Color::YELLOW`) and default light parameters, regardless of the live
scene's contents at save time (the payload is the closed constant
`scene_world`, computed without reading any field of `w`). -/
theorem save_payload_deterministic (w : World) (h : w.saveEvents ≠ []) :
    (save_scene w).saveTasks = w.saveTasks ++ [scene_world] ∧
    scene_world.length = 26 ∧
    ∀ i, i < 26 → scene_world[i]? =
      some { color := ColorRGB.YELLOW, params := LightParams.defaults,
             translation := ((i : Int), 5, 0) } := by
  refine ⟨?_, ?_, ?_⟩
  · have he : w.saveEvents.isEmpty = false := by
      cases hse : w.saveEvents with
      | nil => exact absurd hse h
      | cons a l => rfl
    simp [save_scene, he]
  · rw [scene_world_eq_map]
    simp
  · intro i hi
    rw [scene_world_eq_map, List.getElem?_map, List.getElem?_range hi]
    rfl

def exC5world : World :=
  { trees := [STree.node ⟨0, true, false, false, false, true, some 1, true⟩ none],
    mats := fun _ => some ⟨true, 9⟩, saveEvents := [()], loadEvents := [],
    saveTasks := [], loadSpawns := 0 }

/-- Witness for C5 on a world with a pending save request and a non-trivial
live scene. -/
theorem save_payload_deterministic_witness :
    (save_scene exC5world).saveTasks = exC5world.saveTasks ++ [scene_world] ∧
    scene_world[3]? =
      some { color := ColorRGB.YELLOW, params := LightParams.defaults,
             translation := ((3 : Int), 5, 0) } := by
  have h := save_payload_deterministic exC5world (by simp [exC5world])
  exact ⟨h.1, h.2.2 3 (by norm_num)⟩

/-- Claim C6: both persistence queues are level-coalescing: for any K ≥ 1
pending `SaveScene` signals in one tick, exactly one save action executes
(one payload is handed to the task pool) and the queue is empty afterwards;
likewise K `LoadScene` signals produce exactly one load spawn; and K signals
in one tick are observably identical to a single signal. -/
theorem event_queues_coalesce (w : World) (k : Nat)
    (hs : w.saveEvents.length = k) (hl : w.loadEvents.length = k)
    (hk : 1 ≤ k) :
    (save_scene w).saveTasks = w.saveTasks ++ [scene_world] ∧
    (save_scene w).saveEvents = [] ∧
    (load_scene w).loadSpawns = w.loadSpawns + 1 ∧
    (load_scene w).loadEvents = [] ∧
    save_scene w = save_scene { w with saveEvents := [()] } ∧
    load_scene w = load_scene { w with loadEvents := [()] } := by
  have hse : w.saveEvents.isEmpty = false := by
    cases hc : w.saveEvents with
    | nil => rw [hc] at hs; simp at hs; omega
    | cons a l => rfl
  have hle : w.loadEvents.isEmpty = false := by
    cases hc : w.loadEvents with
    | nil => rw [hc] at hl; simp at hl; omega
    | cons a l => rfl
  refine ⟨by simp [save_scene, hse], by simp [save_scene, hse],
    by simp [load_scene, hle], by simp [load_scene, hle], ?_, ?_⟩
  · simp [save_scene, hse]
  · simp [load_scene, hle]

def exC6world : World :=
  { trees := [], mats := fun _ => none, saveEvents := [(), ()],
    loadEvents := [(), ()], saveTasks := [], loadSpawns := 0 }

/-- Witness for C6 with two pending signals of each kind in one tick. -/
theorem event_queues_coalesce_witness :
    (save_scene exC6world).saveEvents = [] ∧
    (load_scene exC6world).loadSpawns = exC6world.loadSpawns + 1 ∧
    save_scene exC6world = save_scene { exC6world with saveEvents := [()] } := by
  have h := event_queues_coalesce exC6world 2 rfl rfl (by norm_num)
  exact ⟨h.2.1, h.2.2.1, h.2.2.2.2.1⟩

/-- Claim C7: the save path does not modify the live world beyond clearing
the `SaveScene` queue: scene forest, material store, load queue and load
spawns are untouched (the 26-light snapshot is built in a separately
constructed world that never enters `trees`), and the serialized payload is
handed to the detached-task list instead of mutating shared state. -/
theorem save_scene_frame_effect (w : World) :
    (save_scene w).trees = w.trees ∧
    (save_scene w).mats = w.mats ∧
    (save_scene w).loadEvents = w.loadEvents ∧
    (save_scene w).loadSpawns = w.loadSpawns ∧
    (save_scene w).saveEvents = [] ∧
    ((save_scene w).saveTasks = w.saveTasks ∨
     (save_scene w).saveTasks = w.saveTasks ++ [scene_world]) := by
  cases hse : w.saveEvents with
  | nil =>
      have he : w.saveEvents.isEmpty = true := by rw [hse]; rfl
      simp [save_scene, he, hse]
  | cons a l =>
      have he : w.saveEvents.isEmpty = false := by rw [hse]; rfl
      simp [save_scene, he]
